import Mathlib

/-
Verification of the line-classification and segmentation engine of golit
(src/main.go), a literate-programming HTML generator for Go source files.

The embedding below translates the relevant parts of main.go:
  - the two regular expressions `docsPat = ^\s*\/\/\s` and
    `headerPat = ^\/\/\s#+\s` (lines 61-64), as executable matchers on
    character lists.  Both patterns are anchored at the start of the text,
    `\s` is RE2's whitespace class [\t\n\f\r ], and because '/' and '#' are
    not whitespace the greedy `\s*` / `#+` subpatterns must consume exactly
    the maximal run, so the deterministic functions below match the regex
    semantics exactly.
  - `docsPat.ReplaceAllString(line, "")` (lines 111, 120): the anchored
    pattern matches at most once, at position 0, so replacement removes the
    leading `\s*\/\/\s` match when there is one and otherwise leaves the
    line unchanged (`stripDocs`).
  - `strings.Split(string(srcBytes), "\n")` (line 91): `splitNl`.
  - the segment record `seg` (lines 68-70, raw fields only; the rendered
    fields are filled by external collaborators and carry no logic).
  - the segmentation loop (lines 94-138): state = list of already-closed
    segments (in order), the currently open segment (`segs[len(segs)-1]`
    in the Go code, which is mutated in place through a pointer), and the
    `lastSeen` string.  `segStep` is one iteration of the loop body,
    `segment` is the whole loop, `golitSegs` the loop applied to the split
    source text.
  - the argument-count check of `main` (lines 74-77) as `argPhase`.
-/

namespace Golit

/-- RE2's `\s` character class: `[\t\n\f\r ]`. -/
def goSpace (c : Char) : Bool :=
  c = ' ' || c = '\t' || c = '\n' || c = '\x0c' || c = '\r'

/-- go `headerPat = regexp.MustCompile("^\\/\\/\\s#+\\s")` (main.go line 64):
the line starts with two slashes, one whitespace character, one or more
number signs, then one whitespace character. -/
def headerMatch : List Char → Bool
  | a :: b :: c :: rest =>
      a = '/' && b = '/' && goSpace c &&
      !(rest.takeWhile (fun d => d = '#')).isEmpty &&
      (match rest.dropWhile (fun d => d = '#') with
       | d :: _ => goSpace d
       | [] => false)
  | _ => false

/-- go `docsPat = regexp.MustCompile("^\\s*\\/\\/\\s")` (main.go line 61):
optional leading whitespace, two slashes, then one whitespace character. -/
def docsMatch (l : List Char) : Bool :=
  match l.dropWhile goSpace with
  | a :: b :: c :: _ => a = '/' && b = '/' && goSpace c
  | _ => false

/-- go `docsPat.ReplaceAllString(line, "")` (main.go lines 111 and 120):
remove the single anchored match of `docsPat` when present. -/
def stripDocs (l : List Char) : List Char :=
  match l.dropWhile goSpace with
  | a :: b :: c :: rest => if a = '/' && b = '/' && goSpace c then rest else l
  | _ => l

def headerMatchS (s : String) : Bool := headerMatch s.data

def docsMatchS (s : String) : Bool := docsMatch s.data

def stripDocsS (s : String) : String := String.mk (stripDocs s.data)

/-- go `strings.Split(s, "\n")` on character lists: split on every newline;
the empty text yields one empty piece. -/
def splitNlChars : List Char → List (List Char)
  | [] => [[]]
  | c :: cs =>
    if c = '\n' then [] :: splitNlChars cs
    else
      match splitNlChars cs with
      | h :: t => (c :: h) :: t
      | [] => [[c]]

/-- go `strings.Split(string(srcBytes), "\n")` (main.go line 91). -/
def splitNl (s : String) : List String := (splitNlChars s.data).map String.mk

/-- Join lines with newlines; inverse of `splitNl` on newline-free pieces. -/
def joinNl : List String → String
  | [] => ""
  | [s] => s
  | s :: r :: rest => s ++ "\n" ++ joinNl (r :: rest)

/-- go `type seg struct { docs, code, docsRendered, codeRendered string }`
(main.go lines 68-70), raw fields only: the rendered fields are produced by
the external markdown/pygmentize collaborators and hold no segmentation
logic. -/
structure Seg where
  docs : String
  code : String
deriving Repr, DecidableEq, Inhabited

/-- The loop state of main.go lines 94-96: the segments already appended
and no longer reachable for mutation (`closed`), the currently open segment
(`segs[len(segs)-1]`, mutated through the `lastSeg` pointer: `cur`), and
`lastSeen`.  The Go slice `segs` is `closed ++ [cur]`. -/
structure SegState where
  closed : List Seg
  cur : Seg
  lastSeen : String
deriving Repr, DecidableEq

/-- main.go lines 94-96: `segs = append(segs, &seg{code: "", docs: ""})`,
`lastSeen := ""`.  The sentinel segment is the open segment. -/
def initState : SegState :=
  { closed := [], cur := { docs := "", code := "" }, lastSeen := "" }

/-- Which arm of the if/else chain in main.go lines 110-137 a line takes. -/
inductive Branch where
  | header
  | docs
  | code
deriving Repr, DecidableEq

/-- The if/else conditions of main.go lines 110, 119 in order:
`headerMatch || (emptyMatch && lastHeader)`, then
`docsMatch || (emptyMatch && lastDocs)`, else the code arm. -/
def branchOf (st : SegState) (line : String) : Branch :=
  if headerMatchS line = true ∨ (line = "" ∧ st.lastSeen = "header") then .header
  else if docsMatchS line = true ∨ (line = "" ∧ st.lastSeen = "docs") then .docs
  else .code

/-- main.go lines 110-117: the header arm.  `newHeader = lastSeen != "header"`
opens a dedicated segment; otherwise the stripped text is appended to the
open segment's docs.  `lastSeen` is not assigned in this arm. -/
def headerStep (st : SegState) (line : String) : SegState :=
  if st.lastSeen ≠ "header" then
    { st with closed := st.closed ++ [st.cur],
              cur := { docs := stripDocsS line, code := "" } }
  else
    { st with cur := { st.cur with docs := st.cur.docs ++ "\n" ++ stripDocsS line } }

/-- main.go lines 119-127: the docs arm.
`newDocs = (lastSeen != "docs") && lastSeg.docs != ""`. -/
def docsStep (st : SegState) (line : String) : SegState :=
  if st.lastSeen ≠ "docs" ∧ st.cur.docs ≠ "" then
    { closed := st.closed ++ [st.cur],
      cur := { docs := stripDocsS line, code := "" },
      lastSeen := "docs" }
  else
    { closed := st.closed,
      cur := { st.cur with docs := st.cur.docs ++ "\n" ++ stripDocsS line },
      lastSeen := "docs" }

/-- main.go lines 129-137: the code arm.
`newCode = (lastSeen != "code") && lastSeg.code != ""`. -/
def codeStep (st : SegState) (line : String) : SegState :=
  if st.lastSeen ≠ "code" ∧ st.cur.code ≠ "" then
    { closed := st.closed ++ [st.cur],
      cur := { docs := "", code := line },
      lastSeen := "code" }
  else
    { closed := st.closed,
      cur := { st.cur with code := st.cur.code ++ "\n" ++ line },
      lastSeen := "code" }

/-- One iteration of the loop body, main.go lines 97-137. -/
def segStep (st : SegState) (line : String) : SegState :=
  match branchOf st line with
  | .header => headerStep st line
  | .docs => docsStep st line
  | .code => codeStep st line

/-- The whole segmentation loop, main.go lines 94-138; the resulting Go
slice `segs` is the closed segments followed by the final open segment. -/
def segment (lines : List String) : List Seg :=
  (lines.foldl segStep initState).closed ++ [(lines.foldl segStep initState).cur]

/-- Segmentation of a whole source text: split on newlines, then run the
loop (main.go lines 91-138). -/
def golitSegs (src : String) : List Seg := segment (splitNl src)

/-- main.go line 30: the fixed usage string. -/
def usage : String := "usage: golit input.go title > output.html"

/-- Outcome of the entry argument check: exit code and standard-error text
when the process stops, text written to standard output before stopping,
and the two positional arguments when the run proceeds. -/
structure EntryResult where
  exitCode : Option Nat
  errOut : String
  out : String
  proceedArgs : Option (String × String)
deriving Repr, DecidableEq

/-- main.go lines 74-79: `if len(os.Args) != 3` print the usage line to
standard error and exit with status 1; nothing has been written to standard
output at that point.  Otherwise the run proceeds with
`sourcePath := os.Args[1]` and `title := os.Args[2]`. -/
def argPhase (osArgs : List String) : EntryResult :=
  if osArgs.length ≠ 3 then
    { exitCode := some 1, errOut := usage ++ "\n", out := "", proceedArgs := none }
  else
    { exitCode := none, errOut := "", out := "",
      proceedArgs := some (osArgs.getD 1 "", osArgs.getD 2 "") }

/-- The step function used to describe accumulation into a raw field:
both merge branches of the loop append a newline and then the line text. -/
def appendNl (acc l : String) : String := acc ++ "\n" ++ l

/-- True when the string begins with a newline character. -/
def beginsNl (s : String) : Bool :=
  match s.data with
  | c :: _ => c = '\n'
  | [] => false

/-- The first segment of the stream `closed ++ [cur]`. -/
def firstSeg (st : SegState) : Seg := st.closed.headD st.cur

/-- Shape of a segment that descends from the sentinel: each raw field is
either still empty or begins with a newline, because the loop only ever
merges `"\n" ++ text` into it and never assigns it a fresh line. -/
def sentinelish (s : Seg) : Prop :=
  (s.docs = "" ∨ beginsNl s.docs = true) ∧ (s.code = "" ∨ beginsNl s.code = true)


/-! ### String helper lemmas -/

lemma str_data_append (a b : String) : (a ++ b).data = a.data ++ b.data := by
  cases a; cases b; rfl

lemma str_mk_data (s : String) : String.mk s.data = s := by
  cases s; rfl

lemma str_empty_append (s : String) : "" ++ s = s := by
  cases s; rfl

lemma str_append_empty (s : String) : s ++ "" = s := by
  cases s with
  | mk l => show String.mk (l ++ []) = String.mk l
            rw [List.append_nil]

lemma str_append_assoc (a b c : String) : a ++ b ++ c = a ++ (b ++ c) := by
  cases a; cases b; cases c
  show String.mk _ = String.mk _
  rw [List.append_assoc]

lemma beginsNl_nl_append (s : String) : beginsNl ("\n" ++ s) = true := by
  cases s with
  | mk l => rfl

lemma beginsNl_append (a b : String) (h : beginsNl a = true) :
    beginsNl (a ++ b) = true := by
  cases a with
  | mk l =>
    cases b with
    | mk m =>
      cases l with
      | nil => simp [beginsNl] at h
      | cons c cs =>
        simp only [beginsNl] at h ⊢
        show (decide (c = '\n')) = true
        exact h

/-! ### Branch selection lemmas -/

lemma headerMatchS_empty : headerMatchS "" = false := rfl

lemma docsMatchS_empty : docsMatchS "" = false := rfl

lemma stripDocsS_empty : stripDocsS "" = "" := rfl

lemma docsMatchS_ne_empty {l : String} (h : docsMatchS l = true) : l ≠ "" := by
  intro he
  rw [he, docsMatchS_empty] at h
  exact absurd h (by decide)

lemma headerMatchS_ne_empty {l : String} (h : headerMatchS l = true) : l ≠ "" := by
  intro he
  rw [he, headerMatchS_empty] at h
  exact absurd h (by decide)

lemma branchOf_header_of {st : SegState} {l : String} (h : headerMatchS l = true) :
    branchOf st l = Branch.header := by
  unfold branchOf
  rw [if_pos (Or.inl h)]

lemma branchOf_docs_of {st : SegState} {l : String} (hh : headerMatchS l = false)
    (hd : docsMatchS l = true) : branchOf st l = Branch.docs := by
  unfold branchOf
  rw [if_neg, if_pos (Or.inl hd)]
  rintro (h1 | ⟨he, _⟩)
  · rw [hh] at h1; exact absurd h1 (by decide)
  · exact docsMatchS_ne_empty hd he

lemma branchOf_blank_docs {st : SegState} (h : st.lastSeen = "docs") :
    branchOf st "" = Branch.docs := by
  unfold branchOf
  rw [if_neg, if_pos (Or.inr ⟨rfl, h⟩)]
  rintro (h1 | ⟨_, h2⟩)
  · rw [headerMatchS_empty] at h1; exact absurd h1 (by decide)
  · rw [h] at h2; exact absurd h2 (by decide)

lemma branchOf_code_of {st : SegState} {l : String} (hh : headerMatchS l = false)
    (hd : docsMatchS l = false) (hA : l = "" → st.lastSeen ≠ "header")
    (hB : l = "" → st.lastSeen ≠ "docs") : branchOf st l = Branch.code := by
  unfold branchOf
  rw [if_neg, if_neg]
  · rintro (h1 | ⟨he, h2⟩)
    · rw [hd] at h1; exact absurd h1 (by decide)
    · exact hB he h2
  · rintro (h1 | ⟨he, h2⟩)
    · rw [hh] at h1; exact absurd h1 (by decide)
    · exact hA he h2

/-! ### Step shape lemmas -/

lemma segStep_header_br {st : SegState} {l : String} (h : branchOf st l = Branch.header) :
    segStep st l = headerStep st l := by
  unfold segStep
  rw [h]

lemma segStep_docs_br {st : SegState} {l : String} (h : branchOf st l = Branch.docs) :
    segStep st l = docsStep st l := by
  unfold segStep
  rw [h]

lemma segStep_code_br {st : SegState} {l : String} (h : branchOf st l = Branch.code) :
    segStep st l = codeStep st l := by
  unfold segStep
  rw [h]

lemma headerStep_new {st : SegState} {l : String} (h : st.lastSeen ≠ "header") :
    headerStep st l =
      { st with closed := st.closed ++ [st.cur],
                cur := { docs := stripDocsS l, code := "" } } := by
  unfold headerStep
  rw [if_pos h]

lemma docsStep_merge {st : SegState} {l : String}
    (h : st.lastSeen = "docs" ∨ st.cur.docs = "") :
    docsStep st l =
      { closed := st.closed,
        cur := { st.cur with docs := st.cur.docs ++ "\n" ++ stripDocsS l },
        lastSeen := "docs" } := by
  unfold docsStep
  rw [if_neg]
  rintro ⟨h1, h2⟩
  rcases h with h | h
  · exact h1 h
  · exact h2 h

lemma docsStep_new {st : SegState} {l : String}
    (h1 : st.lastSeen ≠ "docs") (h2 : st.cur.docs ≠ "") :
    docsStep st l =
      { closed := st.closed ++ [st.cur],
        cur := { docs := stripDocsS l, code := "" },
        lastSeen := "docs" } := by
  unfold docsStep
  rw [if_pos ⟨h1, h2⟩]

lemma codeStep_merge {st : SegState} {l : String}
    (h : st.lastSeen = "code" ∨ st.cur.code = "") :
    codeStep st l =
      { closed := st.closed,
        cur := { st.cur with code := st.cur.code ++ "\n" ++ l },
        lastSeen := "code" } := by
  unfold codeStep
  rw [if_neg]
  rintro ⟨h1, h2⟩
  rcases h with h | h
  · exact h1 h
  · exact h2 h

lemma codeStep_new {st : SegState} {l : String}
    (h1 : st.lastSeen ≠ "code") (h2 : st.cur.code ≠ "") :
    codeStep st l =
      { closed := st.closed ++ [st.cur],
        cur := { docs := "", code := l },
        lastSeen := "code" } := by
  unfold codeStep
  rw [if_pos ⟨h1, h2⟩]

/-! ### The lastSeen field never becomes "header" -/

lemma segStep_lastSeen_ne_header {st : SegState} (h : st.lastSeen ≠ "header")
    (l : String) : (segStep st l).lastSeen ≠ "header" := by
  cases hb : branchOf st l with
  | header =>
    rw [segStep_header_br hb, headerStep_new h]
    exact h
  | docs =>
    rw [segStep_docs_br hb]
    unfold docsStep
    split
    · exact (by decide : ("docs" : String) ≠ "header")
    · exact (by decide : ("docs" : String) ≠ "header")
  | code =>
    rw [segStep_code_br hb]
    unfold codeStep
    split
    · exact (by decide : ("code" : String) ≠ "header")
    · exact (by decide : ("code" : String) ≠ "header")

lemma foldl_lastSeen_ne_header (lines : List String) :
    ∀ st : SegState, st.lastSeen ≠ "header" →
      (lines.foldl segStep st).lastSeen ≠ "header" := by
  induction lines with
  | nil => intro st h; exact h
  | cons l ls ih =>
    intro st h
    exact ih (segStep st l) (segStep_lastSeen_ne_header h l)

lemma reach_lastSeen_ne_header (pre : List String) :
    ((pre.foldl segStep initState)).lastSeen ≠ "header" :=
  foldl_lastSeen_ne_header pre initState (by decide)

/-- C5: at every reachable state of the loop (after any prefix `pre` of
processed lines), a header-classified line starts a brand-new segment whose
docs field is the stripped line text; the merge branch of the header arm is
never taken because `lastSeen` is never "header", and `lastSeen` is left
unchanged by the header arm. -/
theorem header_line_new_segment (pre : List String) (line : String)
    (h : headerMatchS line = true) :
    segStep (pre.foldl segStep initState) line =
      { pre.foldl segStep initState with
        closed := (pre.foldl segStep initState).closed ++
                    [(pre.foldl segStep initState).cur],
        cur := { docs := stripDocsS line, code := "" } } := by
  rw [segStep_header_br (branchOf_header_of h),
      headerStep_new (reach_lastSeen_ne_header pre)]

/-- Witness for C5 at a concrete input: a header line immediately preceded
by another header line still opens a new segment. -/
theorem header_line_new_segment_witness :
    headerMatchS "// # B" = true ∧
    segStep ((["// # A"]).foldl segStep initState) "// # B" =
      { (["// # A"]).foldl segStep initState with
        closed := ((["// # A"]).foldl segStep initState).closed ++
                    [((["// # A"]).foldl segStep initState).cur],
        cur := { docs := stripDocsS "// # B", code := "" } } :=
  ⟨by decide, header_line_new_segment ["// # A"] "// # B" (by decide)⟩

/-- Before any docs-arm or code-arm line is processed (all lines so far
header lines, or none), `lastSeen` is still `""` and the open segment's
code field is still empty. -/
lemma allHeader_aux (pre : List String) :
    ∀ st : SegState, st.lastSeen = "" → st.cur.code = "" →
      (∀ l ∈ pre, headerMatchS l = true) →
      ((pre.foldl segStep st)).lastSeen = "" ∧
        ((pre.foldl segStep st)).cur.code = "" := by
  induction pre with
  | nil => intro st h1 h2 _; exact ⟨h1, h2⟩
  | cons l ls ih =>
    intro st h1 h2 hall
    have hl : headerMatchS l = true := hall l (List.mem_cons_self l ls)
    have hne : st.lastSeen ≠ "header" := by rw [h1]; decide
    have hstep : segStep st l =
        { st with closed := st.closed ++ [st.cur],
                  cur := { docs := stripDocsS l, code := "" } } := by
      rw [segStep_header_br (branchOf_header_of hl), headerStep_new hne]
    rw [List.foldl_cons, hstep]
    exact ih _ h1 rfl (fun x hx => hall x (List.mem_cons_of_mem l hx))

/-- C6: dispatch of a blank line.  Immediately after a docs-arm line
(`lastSeen = "docs"`) it is folded into the open segment's docs; immediately
after a code-arm line (`lastSeen = "code"`) it is folded into the open
segment's code; and before any doc or code line has been processed (only
header lines so far, possibly none) it takes the code arm, putting a
newline into the open segment's code and setting `lastSeen` to "code". -/
theorem blank_line_dispatch :
    (∀ st : SegState, st.lastSeen = "docs" →
      segStep st "" =
        { closed := st.closed,
          cur := { st.cur with docs := st.cur.docs ++ "\n" },
          lastSeen := "docs" }) ∧
    (∀ st : SegState, st.lastSeen = "code" →
      segStep st "" =
        { closed := st.closed,
          cur := { st.cur with code := st.cur.code ++ "\n" },
          lastSeen := "code" }) ∧
    (∀ pre : List String, (∀ l ∈ pre, headerMatchS l = true) →
      segStep (pre.foldl segStep initState) "" =
        { closed := (pre.foldl segStep initState).closed,
          cur := { (pre.foldl segStep initState).cur with code := "\n" },
          lastSeen := "code" }) := by
  refine ⟨?_, ?_, ?_⟩
  · intro st h
    rw [segStep_docs_br (branchOf_blank_docs h), docsStep_merge (Or.inl h),
        stripDocsS_empty, str_append_empty]
  · intro st h
    have hb : branchOf st "" = Branch.code := by
      apply branchOf_code_of headerMatchS_empty docsMatchS_empty
      · intro _; rw [h]; decide
      · intro _; rw [h]; decide
    rw [segStep_code_br hb, codeStep_merge (Or.inl h), str_append_empty]
  · intro pre hall
    obtain ⟨h1, h2⟩ := allHeader_aux pre initState rfl rfl hall
    have hb : branchOf (pre.foldl segStep initState) "" = Branch.code := by
      apply branchOf_code_of headerMatchS_empty docsMatchS_empty
      · intro _; rw [h1]; decide
      · intro _; rw [h1]; decide
    rw [segStep_code_br hb, codeStep_merge (Or.inr h2), h2, str_empty_append,
        str_append_empty]

/-- Witness for C6 at concrete states: one for each of the three cases. -/
theorem blank_line_dispatch_witness :
    segStep { closed := [], cur := { docs := "d", code := "" }, lastSeen := "docs" } "" =
      { closed := [], cur := { docs := "d" ++ "\n", code := "" }, lastSeen := "docs" } ∧
    segStep { closed := [], cur := { docs := "", code := "c" }, lastSeen := "code" } "" =
      { closed := [], cur := { docs := "", code := "c" ++ "\n" }, lastSeen := "code" } ∧
    segStep ((["// # A"]).foldl segStep initState) "" =
      { closed := ((["// # A"]).foldl segStep initState).closed,
        cur := { ((["// # A"]).foldl segStep initState).cur with code := "\n" },
        lastSeen := "code" } :=
  ⟨blank_line_dispatch.1 _ rfl, blank_line_dispatch.2.1 _ rfl,
   blank_line_dispatch.2.2 ["// # A"] (by decide)⟩

/-- C7: the run prints the usage line to standard error, exits with status
1 and has written nothing to standard output exactly when the argument
vector (program name plus positionals) does not have length 3, i.e. when
the positional argument count differs from two (main.go lines 74-77). -/
theorem usage_error_iff (osArgs : List String) :
    ((argPhase osArgs).exitCode = some 1 ∧
     (argPhase osArgs).errOut = usage ++ "\n" ∧
     (argPhase osArgs).out = "") ↔ osArgs.length ≠ 3 := by
  unfold argPhase
  by_cases h : osArgs.length ≠ 3
  · rw [if_pos h]
    simp [h]
  · rw [if_neg h]
    simp [h]

/-- Witness for C7: with no positional arguments the usage path is taken. -/
theorem usage_error_iff_witness :
    ((argPhase ["golit"]).exitCode = some 1 ∧
     (argPhase ["golit"]).errOut = usage ++ "\n" ∧
     (argPhase ["golit"]).out = "") ↔ (["golit"] : List String).length ≠ 3 :=
  usage_error_iff ["golit"]

/-- C8: every character list matched by the header pattern is matched by
the doc pattern; the doc pattern also matches lines the header pattern
does not (`"// x"`); and a line matching the header pattern always takes
the header arm of the loop, which is tested first. -/
theorem header_pattern_strict_subset :
    (∀ l : List Char, headerMatch l = true → docsMatch l = true) ∧
    (docsMatch ("// x".data) = true ∧ headerMatch ("// x".data) = false) ∧
    (∀ (st : SegState) (l : String), headerMatchS l = true →
      branchOf st l = Branch.header) := by
  refine ⟨?_, ⟨by decide, by decide⟩, fun st l h => branchOf_header_of h⟩
  intro l h
  cases l with
  | nil => exact Bool.noConfusion h
  | cons a l1 =>
    cases l1 with
    | nil => exact Bool.noConfusion h
    | cons b l2 =>
      cases l2 with
      | nil => exact Bool.noConfusion h
      | cons c rest =>
        simp only [headerMatch, Bool.and_eq_true, decide_eq_true_eq] at h
        obtain ⟨⟨⟨⟨ha, hb⟩, hc⟩, _⟩, _⟩ := h
        subst ha
        subst hb
        have hslash : goSpace '/' = false := rfl
        simp [docsMatch, List.dropWhile, hslash, hc]

/-- Witness for C8: the concrete header line is also a doc line, and takes
the header arm from the initial state. -/
theorem header_pattern_strict_subset_witness :
    docsMatch ("// # T".data) = true ∧
    branchOf initState "// # T" = Branch.header :=
  ⟨header_pattern_strict_subset.1 ("// # T".data) (by decide),
   header_pattern_strict_subset.2.2 initState "// # T" (by decide)⟩

/-! ### The first segment of the stream descends from the sentinel -/

lemma headD_append_singleton (xs : List Seg) (x d : Seg) :
    (xs ++ [x]).headD d = xs.headD x := by
  cases xs <;> rfl

lemma sentinelish_docs_merge {s : Seg} (h : sentinelish s) (t : String) :
    sentinelish { s with docs := s.docs ++ "\n" ++ t } := by
  refine ⟨Or.inr ?_, h.2⟩
  rcases h.1 with h1 | h1
  · rw [h1, str_empty_append]
    exact beginsNl_nl_append t
  · exact beginsNl_append _ _ (beginsNl_append _ _ h1)

lemma sentinelish_code_merge {s : Seg} (h : sentinelish s) (t : String) :
    sentinelish { s with code := s.code ++ "\n" ++ t } := by
  refine ⟨h.1, Or.inr ?_⟩
  rcases h.2 with h1 | h1
  · rw [h1, str_empty_append]
    exact beginsNl_nl_append t
  · exact beginsNl_append _ _ (beginsNl_append _ _ h1)

lemma segStep_sentinelish {st : SegState} (h : sentinelish (firstSeg st))
    (l : String) : sentinelish (firstSeg (segStep st l)) := by
  obtain ⟨cl, cu, ls⟩ := st
  have hA : sentinelish (cl.headD cu) := h
  cases hb : branchOf ⟨cl, cu, ls⟩ l with
  | header =>
    rw [segStep_header_br hb]
    unfold headerStep
    split
    · show sentinelish ((cl ++ [cu]).headD _)
      rw [headD_append_singleton]
      exact hA
    · show sentinelish (cl.headD { cu with docs := cu.docs ++ "\n" ++ stripDocsS l })
      cases cl with
      | nil => exact sentinelish_docs_merge hA _
      | cons c cs => exact hA
  | docs =>
    rw [segStep_docs_br hb]
    unfold docsStep
    split
    · show sentinelish ((cl ++ [cu]).headD _)
      rw [headD_append_singleton]
      exact hA
    · show sentinelish (cl.headD { cu with docs := cu.docs ++ "\n" ++ stripDocsS l })
      cases cl with
      | nil => exact sentinelish_docs_merge hA _
      | cons c cs => exact hA
  | code =>
    rw [segStep_code_br hb]
    unfold codeStep
    split
    · show sentinelish ((cl ++ [cu]).headD _)
      rw [headD_append_singleton]
      exact hA
    · show sentinelish (cl.headD { cu with code := cu.code ++ "\n" ++ l })
      cases cl with
      | nil => exact sentinelish_code_merge hA _
      | cons c cs => exact hA

lemma foldl_sentinelish (lines : List String) :
    ∀ st : SegState, sentinelish (firstSeg st) →
      sentinelish (firstSeg (lines.foldl segStep st)) := by
  induction lines with
  | nil => intro st h; exact h
  | cons l ls ih => intro st h; exact ih _ (segStep_sentinelish h l)

/-- C2 (amended): the stream starts as the sentinel segment alone, with
both fields empty, before any line is processed; the pass never removes or
reorders it, but it may merge content into it, each merge prepending a
newline.  So after the pass the stream is nonempty and its first segment —
the sentinel — has each raw field either still empty or beginning with a
newline; the fields need not still be empty. -/
theorem sentinel_first_segment :
    segment [] = [{ docs := "", code := "" }] ∧
    ∀ src : String, golitSegs src ≠ [] ∧
      sentinelish ((golitSegs src).headD { docs := "", code := "" }) := by
  refine ⟨rfl, fun src => ⟨?_, ?_⟩⟩
  · unfold golitSegs segment
    simp
  · unfold golitSegs segment
    rw [headD_append_singleton]
    exact foldl_sentinelish (splitNl src) initState ⟨Or.inl rfl, Or.inl rfl⟩

/-! ### Once the first segment's code begins with a newline, it stays so -/

lemma segStep_first_code_nl {st : SegState}
    (h : beginsNl (firstSeg st).code = true) (l : String) :
    beginsNl (firstSeg (segStep st l)).code = true := by
  obtain ⟨cl, cu, ls⟩ := st
  have hA : beginsNl ((cl.headD cu)).code = true := h
  cases hb : branchOf ⟨cl, cu, ls⟩ l with
  | header =>
    rw [segStep_header_br hb]
    unfold headerStep
    split
    · show beginsNl (((cl ++ [cu]).headD _).code) = true
      rw [headD_append_singleton]
      exact hA
    · show beginsNl ((cl.headD { cu with docs := cu.docs ++ "\n" ++ stripDocsS l }).code) = true
      cases cl with
      | nil => exact hA
      | cons c cs => exact hA
  | docs =>
    rw [segStep_docs_br hb]
    unfold docsStep
    split
    · show beginsNl (((cl ++ [cu]).headD _).code) = true
      rw [headD_append_singleton]
      exact hA
    · show beginsNl ((cl.headD { cu with docs := cu.docs ++ "\n" ++ stripDocsS l }).code) = true
      cases cl with
      | nil => exact hA
      | cons c cs => exact hA
  | code =>
    rw [segStep_code_br hb]
    unfold codeStep
    split
    · show beginsNl (((cl ++ [cu]).headD _).code) = true
      rw [headD_append_singleton]
      exact hA
    · show beginsNl ((cl.headD { cu with code := cu.code ++ "\n" ++ l }).code) = true
      cases cl with
      | nil => exact beginsNl_append _ _ (beginsNl_append _ _ hA)
      | cons c cs => exact hA

lemma foldl_first_code_nl (lines : List String) :
    ∀ st : SegState, beginsNl (firstSeg st).code = true →
      beginsNl (firstSeg (lines.foldl segStep st)).code = true := by
  induction lines with
  | nil => intro st h; exact h
  | cons l ls ih => intro st h; exact ih _ (segStep_first_code_nl h l)

lemma splitNlChars_ne_nil (l : List Char) : splitNlChars l ≠ [] := by
  induction l with
  | nil => simp [splitNlChars]
  | cons c cs ih =>
    unfold splitNlChars
    split
    · simp
    · cases hs : splitNlChars cs with
      | nil => exact absurd hs ih
      | cons h t => simp

lemma splitNl_ne_nil (s : String) : splitNl s ≠ [] := by
  unfold splitNl
  simp [splitNlChars_ne_nil]

/-- C9: whenever a line is merged into the open segment while the target
raw field is still empty, the field becomes a newline followed by the
line's (stripped, for docs and header continuations, or verbatim, for
code) text; consequently, for any source whose first line matches neither
pattern (a code line), the first segment's code begins with an empty
line. -/
theorem merge_into_empty_field :
    (∀ (st : SegState) (l : String), branchOf st l = Branch.docs →
      st.cur.docs = "" → (segStep st l).cur.docs = "\n" ++ stripDocsS l) ∧
    (∀ (st : SegState) (l : String), branchOf st l = Branch.header →
      st.lastSeen = "header" → st.cur.docs = "" →
      (segStep st l).cur.docs = "\n" ++ stripDocsS l) ∧
    (∀ (st : SegState) (l : String), branchOf st l = Branch.code →
      st.cur.code = "" → (segStep st l).cur.code = "\n" ++ l) ∧
    (∀ src : String,
      headerMatchS ((splitNl src).headD "") = false →
      docsMatchS ((splitNl src).headD "") = false →
      beginsNl (((golitSegs src).headD { docs := "", code := "" }).code) = true) := by
  refine ⟨?_, ?_, ?_, ?_⟩
  · intro st l hb hd
    rw [segStep_docs_br hb, docsStep_merge (Or.inr hd)]
    show st.cur.docs ++ "\n" ++ stripDocsS l = _
    rw [hd, str_empty_append]
  · intro st l hb hls hd
    rw [segStep_header_br hb]
    unfold headerStep
    rw [if_neg (fun hne => hne hls)]
    show st.cur.docs ++ "\n" ++ stripDocsS l = _
    rw [hd, str_empty_append]
  · intro st l hb hc
    rw [segStep_code_br hb, codeStep_merge (Or.inr hc)]
    show st.cur.code ++ "\n" ++ l = _
    rw [hc, str_empty_append]
  · intro src hh hd
    obtain ⟨l0, rest, heq⟩ := List.exists_cons_of_ne_nil (splitNl_ne_nil src)
    rw [heq, List.headD_cons] at hh hd
    have hb : branchOf initState l0 = Branch.code :=
      branchOf_code_of hh hd (fun _ => by decide) (fun _ => by decide)
    have hkey : beginsNl (firstSeg ((l0 :: rest).foldl segStep initState)).code = true := by
      rw [List.foldl_cons]
      apply foldl_first_code_nl
      rw [segStep_code_br hb, codeStep_merge (Or.inr rfl)]
      show beginsNl ("" ++ "\n" ++ l0) = true
      rw [str_empty_append]
      exact beginsNl_nl_append l0
    unfold golitSegs segment
    rw [heq, headD_append_singleton]
    exact hkey

/-- Witness for C9 at concrete inputs, one per conjunct. -/
theorem merge_into_empty_field_witness :
    (segStep initState "// d").cur.docs = "\n" ++ stripDocsS "// d" ∧
    (segStep { closed := [], cur := { docs := "", code := "" }, lastSeen := "header" }
        "// # h").cur.docs = "\n" ++ stripDocsS "// # h" ∧
    (segStep initState "x").cur.code = "\n" ++ "x" ∧
    beginsNl (((golitSegs "x\ny").headD { docs := "", code := "" }).code) = true :=
  ⟨merge_into_empty_field.1 initState "// d" (by decide) rfl,
   merge_into_empty_field.2.1
     { closed := [], cur := { docs := "", code := "" }, lastSeen := "header" }
     "// # h" (by decide) rfl rfl,
   merge_into_empty_field.2.2.1 initState "x" (by decide) rfl,
   merge_into_empty_field.2.2.2 "x\ny" (by decide) (by decide)⟩

/-! ### Blank-line helper lemmas (shared by the blank-dispatch theorems) -/

lemma blank_after_docs (st : SegState) (h : st.lastSeen = "docs") :
    segStep st "" =
      { closed := st.closed,
        cur := { st.cur with docs := st.cur.docs ++ "\n" },
        lastSeen := "docs" } := by
  rw [segStep_docs_br (branchOf_blank_docs h), docsStep_merge (Or.inl h),
      stripDocsS_empty, str_append_empty]

lemma blank_to_code (st : SegState) (h1 : st.lastSeen ≠ "header")
    (h2 : st.lastSeen ≠ "docs") (h3 : st.lastSeen = "code" ∨ st.cur.code = "") :
    segStep st "" =
      { closed := st.closed,
        cur := { st.cur with code := st.cur.code ++ "\n" },
        lastSeen := "code" } := by
  have hb : branchOf st "" = Branch.code :=
    branchOf_code_of headerMatchS_empty docsMatchS_empty (fun _ => h1) (fun _ => h2)
  rw [segStep_code_br hb, codeStep_merge h3, str_append_empty]

/-- C10: the header arm leaves `lastSeen` unchanged, so a blank line right
after a header line is dispatched by the state in force before that header:
if `lastSeen` was "docs" the blank line is appended to the header segment's
docs as an empty continuation line; otherwise the blank line takes the code
arm and is stored in the header segment's code. -/
theorem header_keeps_lastSeen (st : SegState) (hline : String)
    (hm : headerMatchS hline = true) (hns : st.lastSeen ≠ "header") :
    (segStep st hline).lastSeen = st.lastSeen ∧
    (segStep st hline).cur = { docs := stripDocsS hline, code := "" } ∧
    (st.lastSeen = "docs" →
      segStep (segStep st hline) "" =
        { segStep st hline with
          cur := { docs := stripDocsS hline ++ "\n", code := "" },
          lastSeen := "docs" }) ∧
    (st.lastSeen ≠ "docs" →
      segStep (segStep st hline) "" =
        { segStep st hline with
          cur := { docs := stripDocsS hline, code := "\n" },
          lastSeen := "code" }) := by
  have hstep : segStep st hline =
      { st with closed := st.closed ++ [st.cur],
                cur := { docs := stripDocsS hline, code := "" } } := by
    rw [segStep_header_br (branchOf_header_of hm), headerStep_new hns]
  refine ⟨by rw [hstep], by rw [hstep], ?_, ?_⟩
  · intro hdoc
    have h2 : (segStep st hline).lastSeen = "docs" := by rw [hstep]; exact hdoc
    rw [blank_after_docs _ h2, hstep]
  · intro hnd
    have h1 : (segStep st hline).lastSeen ≠ "header" := by rw [hstep]; exact hns
    have h2 : (segStep st hline).lastSeen ≠ "docs" := by rw [hstep]; exact hnd
    have h3 : (segStep st hline).cur.code = "" := by rw [hstep]
    rw [blank_to_code _ h1 h2 (Or.inr h3), hstep]
    rfl

/-- Witness for C10: a doc line, then a header line, then a blank line; the
blank line is folded into the header segment's docs because `lastSeen` is
still "docs" from before the header. -/
theorem header_keeps_lastSeen_witness :
    headerMatchS "// # H" = true ∧
    segStep (segStep { closed := [],
                       cur := { docs := "d", code := "" },
                       lastSeen := "docs" } "// # H") "" =
      { (segStep { closed := [],
                   cur := { docs := "d", code := "" },
                   lastSeen := "docs" } "// # H") with
        cur := { docs := stripDocsS "// # H" ++ "\n", code := "" },
        lastSeen := "docs" } :=
  ⟨by decide,
   (header_keeps_lastSeen
     { closed := [], cur := { docs := "d", code := "" }, lastSeen := "docs" }
     "// # H" (by decide) (by decide)).2.2.1 rfl⟩

/-! ### Accumulation of a run of code lines and the split/join round trip -/

lemma joinNl_cons_cons (a b : String) (rs : List String) :
    joinNl (a :: b :: rs) = a ++ "\n" ++ joinNl (b :: rs) := rfl

lemma joinNl_glue (a b : String) (rs : List String) :
    joinNl ((a ++ "\n" ++ b) :: rs) = a ++ "\n" ++ joinNl (b :: rs) := by
  cases rs with
  | nil => rfl
  | cons c cs =>
    rw [joinNl_cons_cons, joinNl_cons_cons]
    simp only [str_append_assoc]

lemma foldl_appendNl (rs : List String) :
    ∀ l0 : String, rs.foldl appendNl l0 = joinNl (l0 :: rs) := by
  induction rs with
  | nil => intro l0; rfl
  | cons r rest ih =>
    intro l0
    rw [List.foldl_cons, ih (appendNl l0 r)]
    show joinNl ((l0 ++ "\n" ++ r) :: rest) = _
    rw [joinNl_glue]
    exact (joinNl_cons_cons l0 r rest).symm

/-- Folding the loop over lines that match neither pattern, starting with
`lastSeen = "code"`, only ever takes the merge branch of the code arm. -/
lemma fold_code_merge (rest : List String) :
    ∀ st : SegState, st.lastSeen = "code" →
      (∀ l ∈ rest, headerMatchS l = false ∧ docsMatchS l = false) →
      rest.foldl segStep st =
        { closed := st.closed,
          cur := { st.cur with code := rest.foldl appendNl st.cur.code },
          lastSeen := "code" } := by
  induction rest with
  | nil =>
    intro st h _
    obtain ⟨cl, cu, ls⟩ := st
    subst h
    rfl
  | cons l ls ih =>
    intro st h hall
    obtain ⟨h1, h2⟩ := hall l (List.mem_cons_self l ls)
    have hb : branchOf st l = Branch.code := by
      apply branchOf_code_of h1 h2
      · intro _; rw [h]; decide
      · intro _; rw [h]; decide
    rw [List.foldl_cons, segStep_code_br hb, codeStep_merge (Or.inl h),
        ih _ rfl (fun x hx => hall x (List.mem_cons_of_mem l hx))]
    rfl

lemma splitNlChars_cons (c : Char) (cs : List Char) :
    splitNlChars (c :: cs) =
      if c = '\n' then [] :: splitNlChars cs
      else
        match splitNlChars cs with
        | h :: t => (c :: h) :: t
        | [] => [[c]] := by
  simp only [splitNlChars]

lemma splitNlChars_no_nl (l : List Char) (h : '\n' ∉ l) : splitNlChars l = [l] := by
  induction l with
  | nil => rfl
  | cons c cs ih =>
    have hc : ¬(c = '\n') := fun hcc => h (hcc ▸ List.mem_cons_self c cs)
    unfold splitNlChars
    rw [if_neg hc, ih (fun hm => h (List.mem_cons_of_mem c hm))]

lemma splitNlChars_append_nl (p t : List Char) (h : '\n' ∉ p) :
    splitNlChars (p ++ '\n' :: t) = p :: splitNlChars t := by
  induction p with
  | nil =>
    show splitNlChars ('\n' :: t) = [] :: splitNlChars t
    rw [splitNlChars_cons, if_pos rfl]
  | cons c cs ih =>
    have hc : ¬(c = '\n') := fun hcc => h (hcc ▸ List.mem_cons_self c cs)
    show splitNlChars (c :: (cs ++ '\n' :: t)) = (c :: cs) :: splitNlChars t
    rw [splitNlChars_cons, if_neg hc, ih (fun hm => h (List.mem_cons_of_mem c hm))]

lemma splitNl_append_nl (p t : String) (h : '\n' ∉ p.data) :
    splitNl (p ++ "\n" ++ t) = p :: splitNl t := by
  unfold splitNl
  have hd : (p ++ "\n" ++ t).data = p.data ++ '\n' :: t.data := by
    rw [str_data_append, str_data_append, List.append_assoc]
    rfl
  rw [hd, splitNlChars_append_nl _ _ h, List.map_cons, str_mk_data]

lemma splitNl_nl_cons (t : String) : splitNl ("\n" ++ t) = "" :: splitNl t := by
  unfold splitNl
  have hd : ("\n" ++ t).data = '\n' :: t.data := by
    rw [str_data_append]
    rfl
  rw [hd, splitNlChars_cons, if_pos rfl, List.map_cons]

lemma splitNl_joinNl (ls : List String) (h : ∀ l ∈ ls, '\n' ∉ l.data)
    (hne : ls ≠ []) : splitNl (joinNl ls) = ls := by
  induction ls with
  | nil => exact absurd rfl hne
  | cons a rest ih =>
    cases rest with
    | nil =>
      show splitNl a = [a]
      unfold splitNl
      rw [splitNlChars_no_nl a.data (h a (List.mem_cons_self a [])), List.map_cons,
          str_mk_data]
      rfl
    | cons b rest2 =>
      rw [joinNl_cons_cons, splitNl_append_nl a _ (h a (List.mem_cons_self a _)),
          ih (fun x hx => h x (List.mem_cons_of_mem a hx)) (by simp)]

/-- C3 (amended): a maximal run of consecutive code-arm lines — the first
line takes the code arm at an entry state with `lastSeen ≠ "code"`, the
following lines match neither pattern — accumulates into a single
segment's code, joined by newlines in original order.  When the open
segment's code was non-empty, a fresh segment is opened and re-splitting
its code reproduces the run verbatim; when it was empty (the sentinel, or
a segment opened by a docs/header line), the run is merged into the open
segment, whose code becomes a newline followed by the joined run, so
re-splitting yields one leading empty line before the original lines. -/
theorem code_run_accumulation (st : SegState) (l0 : String) (rest : List String)
    (hb : branchOf st l0 = Branch.code)
    (hls : st.lastSeen ≠ "code")
    (hr : ∀ l ∈ rest, headerMatchS l = false ∧ docsMatchS l = false)
    (hnl : ∀ l ∈ l0 :: rest, '\n' ∉ l.data) :
    ((l0 :: rest).foldl segStep st).lastSeen = "code" ∧
    (if st.cur.code = "" then
      ((l0 :: rest).foldl segStep st).closed = st.closed ∧
      ((l0 :: rest).foldl segStep st).cur.code = "\n" ++ joinNl (l0 :: rest) ∧
      splitNl (((l0 :: rest).foldl segStep st).cur.code) = "" :: l0 :: rest
    else
      ((l0 :: rest).foldl segStep st).closed = st.closed ++ [st.cur] ∧
      ((l0 :: rest).foldl segStep st).cur.code = joinNl (l0 :: rest) ∧
      splitNl (((l0 :: rest).foldl segStep st).cur.code) = l0 :: rest) := by
  by_cases hc : st.cur.code = ""
  · have hmain : (l0 :: rest).foldl segStep st =
        { closed := st.closed,
          cur := { st.cur with code := "\n" ++ joinNl (l0 :: rest) },
          lastSeen := "code" } := by
      rw [List.foldl_cons, segStep_code_br hb, codeStep_merge (Or.inr hc),
          fold_code_merge rest _ rfl hr]
      dsimp only
      rw [foldl_appendNl, joinNl_glue, hc, str_empty_append]
    rw [hmain, if_pos hc]
    refine ⟨rfl, rfl, rfl, ?_⟩
    show splitNl ("\n" ++ joinNl (l0 :: rest)) = _
    rw [splitNl_nl_cons, splitNl_joinNl _ hnl (by simp)]
  · have hmain : (l0 :: rest).foldl segStep st =
        { closed := st.closed ++ [st.cur],
          cur := { docs := "", code := joinNl (l0 :: rest) },
          lastSeen := "code" } := by
      rw [List.foldl_cons, segStep_code_br hb, codeStep_new hls hc,
          fold_code_merge rest _ rfl hr]
      dsimp only
      rw [foldl_appendNl]
    rw [hmain, if_neg hc]
    refine ⟨rfl, rfl, rfl, ?_⟩
    show splitNl (joinNl (l0 :: rest)) = _
    rw [splitNl_joinNl _ hnl (by simp)]

/-- Witness for C3 at a concrete run from the initial state: the two code
lines "x" and "y" merge into the sentinel, whose code round-trips with one
leading empty line. -/
theorem code_run_accumulation_witness :
    branchOf initState "x" = Branch.code ∧
    (((["x", "y"] : List String).foldl segStep initState).lastSeen = "code" ∧
     (if initState.cur.code = "" then
       ((["x", "y"] : List String).foldl segStep initState).closed = initState.closed ∧
       ((["x", "y"] : List String).foldl segStep initState).cur.code =
         "\n" ++ joinNl ["x", "y"] ∧
       splitNl (((["x", "y"] : List String).foldl segStep initState).cur.code) =
         "" :: "x" :: ["y"]
     else
       ((["x", "y"] : List String).foldl segStep initState).closed =
         initState.closed ++ [initState.cur] ∧
       ((["x", "y"] : List String).foldl segStep initState).cur.code =
         joinNl ["x", "y"] ∧
       splitNl (((["x", "y"] : List String).foldl segStep initState).cur.code) =
         "x" :: ["y"])) :=
  ⟨by decide,
   code_run_accumulation initState "x" ["y"] (by decide) (by decide)
     (by decide) (by decide)⟩

/-! ### Concrete end-to-end evaluations -/

/-- C1 counterexample: on the scenario-1 input the pass does not produce
two segments after the sentinel; it produces one segment in total (the
sentinel itself), and no segment has docs "Title": the doc line and the
code lines are merged into the sentinel, with a leading newline each. -/
theorem scenario1_counterexample :
    (golitSegs "// Title\nfunc f() {}\n").length = 1 ∧
    (golitSegs "// Title\nfunc f() {}\n").map Seg.docs = ["\nTitle"] ∧
    (golitSegs "// Title\nfunc f() {}\n").map Seg.code = ["\nfunc f() {}\n"] := by
  decide

/-- C1 (amended): on input `"// Title\nfunc f() {}\n"` the pass produces
no segment besides the sentinel: the doc line merges into the sentinel
(docs becomes `"\nTitle"`) because a new segment is only opened when the
open segment's docs is already non-empty, and the code line plus the final
empty line merge into the same segment (code becomes
`"\nfunc f() {}\n"`). -/
theorem scenario1_amended :
    golitSegs "// Title\nfunc f() {}\n" =
      [{ docs := "\nTitle", code := "\nfunc f() {}\n" }] := by
  decide

/-- C2 counterexample: for input `"x"` the first segment of the stream
ends the pass with non-empty code (`"\nx"`), so the stream does not begin
with a segment whose fields are both empty. -/
theorem sentinel_counterexample :
    ((golitSegs "x").headD { docs := "", code := "" }).code ≠ "" := by
  decide

/-- C3 counterexample: for input `"x"` the single (maximal) code run is
the one line `"x"`; the owning segment's code is `"\nx"`, and re-splitting
it on newlines yields `["", "x"]`, not the original run `["x"]`. -/
theorem code_run_counterexample :
    golitSegs "x" = [{ docs := "", code := "\nx" }] ∧
    splitNl (((golitSegs "x").headD { docs := "", code := "" }).code) ≠ ["x"] := by
  decide

/-- C4 counterexample: on the scenario-2 input the stream has exactly two
segments — the untouched sentinel and the header segment — and the header
segment itself carries the blank line and the code in its code field, so
no separate code segment follows the header segment. -/
theorem scenario2_counterexample :
    (golitSegs "// # Head\n\nfunc f() {}\n").length = 2 ∧
    (golitSegs "// # Head\n\nfunc f() {}\n").map Seg.docs = ["", "# Head"] ∧
    (golitSegs "// # Head\n\nfunc f() {}\n").map Seg.code =
      ["", "\n\nfunc f() {}\n"] := by
  decide

/-- C4 (amended): on input `"// # Head\n\nfunc f() {}\n"` the header line
opens a dedicated segment with docs `"# Head"`; the blank line then takes
the code path (`lastSeen` is still `""`) but, because the header segment's
code is still empty, it merges into the header segment itself rather than
opening a separate code segment, and the following code line and final
empty line merge likewise: the header segment's code becomes
`"\n\nfunc f() {}\n"` while the sentinel stays empty. -/
theorem scenario2_amended :
    golitSegs "// # Head\n\nfunc f() {}\n" =
      [{ docs := "", code := "" },
       { docs := "# Head", code := "\n\nfunc f() {}\n" }] := by
  decide

end Golit
